import Mathlib

/-!
Verification of the `parse-pdf` service (src/main.py) against its
specification.  The Python pipeline is shallowly embedded: pure helpers
become Lean functions, the external world (PDF reader, PIL decode/encode,
the Claude vision call, the on-disk cache) becomes an explicit environment
of `Except`-valued functions, and exceptions become `Except.error` values
that propagate exactly where the Python `try/except` blocks let them.
-/

/-- An embedded XObject of a PDF page, as seen by the loop in
`parse_pdf` (src/main.py:129-149): its `/Subtype`, its `/Filter`
(the encoding), and the pixel dimensions reported by `img.size`. -/
structure Img where
  subtype : String
  filter : String
  width : Nat
  height : Nat
  deriving Repr, DecidableEq

/-- One PDF page: the text returned by `page.extract_text()` and the
XObjects of its `/Resources`, in encounter order. -/
structure Page where
  text : String
  images : List Img
  deriving Repr, DecidableEq

/-- src/main.py:96-99.  `is_relevant_image(width, height)`: skip an image
only when its pixel count is below 40000 and its aspect ratio lies in the
inclusive band [0.8, 1.2]; division by a zero height is guarded, the
ratio then being 0.  Python's true division is modelled by exact rational
division. -/
def is_relevant_image (width height : Nat) : Bool :=
  let total_pixels := width * height
  let aspect_ratio : ℚ := if height ≠ 0 then (width : ℚ) / (height : ℚ) else 0
  !(total_pixels < 40000 && ((0.8 : ℚ) ≤ aspect_ratio && aspect_ratio ≤ (1.2 : ℚ)))

/-- The `if/elif/elif/else` filter dispatch of src/main.py:134-147,
returning the transport format and media type for a recognized filter and
`none` for the silent `continue` of the `else` branch. -/
def filterFormat (f : String) : Option (String × String) :=
  if f = "/FlateDecode" then some ("png", "image/png")
  else if f = "/DCTDecode" then some ("jpeg", "image/jpeg")
  else if f = "/JPXDecode" then some ("jp2", "image/jp2")
  else none

/-- An image triggers an analysis call iff it is an `/Image` XObject, its
filter is one of the three recognized ones, and the relevance filter
accepts its dimensions. -/
def qualifies (i : Img) : Bool :=
  i.subtype = "/Image" && (filterFormat i.filter).isSome
    && is_relevant_image i.width i.height

/-- A stored cache record: the file `.cache/<key>.json` either holds a
well-formed document or is malformed/unreadable, in which case reading it
raises with the given message. -/
inductive CEntry where
  | good (doc : String)
  | bad (err : String)
  deriving Repr, DecidableEq

/-- The cache directory: one record per fingerprint key. -/
abbrev Cache := List (String × CEntry)

/-- Association lookup in the cache directory (file existence check). -/
def cacheLookup : Cache → String → Option CEntry
  | [], _ => none
  | (k, v) :: rest, key => if k = key then some v else cacheLookup rest key

namespace FileCache

/-- src/main.py:28-33.  `FileCache.get`: a missing file returns `None`;
an existing file is `json.load`ed, which raises on malformed or
unreadable content, and that exception is NOT caught. -/
def get (c : Cache) (key : String) : Except String (Option String) :=
  match cacheLookup c key with
  | none => Except.ok none
  | some (CEntry.good d) => Except.ok (some d)
  | some (CEntry.bad e) => Except.error e

/-- src/main.py:35-38.  `FileCache.put`: writes the record; `open(path,
"w")`/`json.dump` raise when the store is unwritable (`putError` injects
that fault), and the exception is NOT caught. -/
def put (putError : Option String) (c : Cache) (key doc : String) :
    Except String Cache :=
  match putError with
  | some e => Except.error e
  | none => Except.ok ((key, CEntry.good doc) :: c)

end FileCache

/-- Python's ASCII whitespace set for `str.strip()`. -/
def isPyWhitespace (c : Char) : Bool :=
  c = ' ' || c = '\t' || c = '\n' || c = '\r' || c = '\x0b' || c = '\x0c'

/-- `full_content.strip()` (src/main.py:169): drop whitespace from both
ends of the character sequence. -/
def pyStrip (s : String) : String :=
  ⟨(((s.data.dropWhile isPyWhitespace).reverse).dropWhile isPyWhitespace).reverse⟩

/-- Concatenation of a list of document sections. -/
def strConcat : List String → String
  | [] => ""
  | s :: rest => s ++ strConcat rest

/-- `a` is a prefix of `b` as character sequences. -/
def StrPre (a b : String) : Prop := a.data <+: b.data

/-- The external world of one `parse_pdf` run.  Each field models one
effectful call site of src/main.py; an `Except.error e` models that call
raising an exception whose `str` is `e`. -/
structure Env where
  /-- `get_pdf_hash` (src/main.py:107-108): sha256 hexdigest of the raw
  bytes, a deterministic function of the content. -/
  get_pdf_hash : List Nat → String
  /-- `PdfReader(pdf_file)` and its page/resource traversal
  (src/main.py:120-131): the structural parse of the bytes. -/
  readPdf : List Nat → Except String (List Page)
  /-- Fault injection for `FileCache.put` (unwritable cache store). -/
  putError : Option String
  /-- `Image.frombytes` / `Image.open` (src/main.py:135-143): decoding a
  recognized image, which may raise. -/
  decodeImg : Img → Except String Unit
  /-- `img.save(img_byte_arr, format=...)` (src/main.py:155): re-encoding
  to the transport format, which may raise. -/
  saveImg : Img → String → Except String Unit
  /-- `claude_client.analyze_image(bytes, mime_type, full_content)`
  (src/main.py:48-93,159-161): the external model call, which may raise. -/
  analyze_image : Img → String → String → Except String String

/-- The mutable loop state of `parse_pdf`: the accumulating
`full_content`, plus the instrumentation this development needs — the
list of context strings passed to `analyze_image`, in call order. -/
structure RunSt where
  content : String
  calls : List String
  deriving Repr, DecidableEq

/-- The page header section `f"\n\n--- Page {page_num} ---\n\n{page_text}\n"`
of src/main.py:125. -/
def pageRender (n : Nat) (text : String) : String :=
  "\n\n--- Page " ++ toString n ++ " ---\n\n" ++ text ++ "\n"

/-- The analysis section
`f"\n\n--- Image Analysis (Page {page_num}) ---\n\n{analysis}\n"` of
src/main.py:165-167. -/
def imageRender (n : Nat) (analysis : String) : String :=
  "\n\n--- Image Analysis (Page " ++ toString n ++ ") ---\n\n" ++ analysis ++ "\n"

/-- The body of the inner `for obj in xObject` loop (src/main.py:129-167)
for one XObject: skip non-images and unrecognized filters, decode, apply
the relevance filter, re-encode, call the analyzer with the accumulated
content as context — only that call is inside `try/except`, its failure
becoming the inline `"Error analyzing image: ..."` placeholder — and
append the section.  Exceptions of decode and save propagate. -/
def processImage (env : Env) (n : Nat) (st : RunSt) (i : Img) :
    Except String RunSt :=
  if i.subtype = "/Image" then
    match filterFormat i.filter with
    | none => Except.ok st
    | some (fmt, mime) =>
      match env.decodeImg i with
      | Except.error e => Except.error e
      | Except.ok _ =>
        if is_relevant_image i.width i.height then
          match env.saveImg i fmt with
          | Except.error e => Except.error e
          | Except.ok _ =>
            let analysis :=
              match env.analyze_image i mime st.content with
              | Except.ok a => a
              | Except.error e => "Error analyzing image: " ++ e
            Except.ok ⟨st.content ++ imageRender n analysis,
                       st.calls ++ [st.content]⟩
        else Except.ok st
  else Except.ok st

/-- The inner loop over a page's XObjects, in encounter order. -/
def processImages (env : Env) (n : Nat) : RunSt → List Img → Except String RunSt
  | st, [] => Except.ok st
  | st, i :: is =>
    match processImage env n st i with
    | Except.error e => Except.error e
    | Except.ok st' => processImages env n st' is

/-- The outer loop `for page_num, page in enumerate(pdf.pages, 1)`
(src/main.py:123-167): append the page section, then process the page's
images. -/
def runPages (env : Env) : Nat → RunSt → List Page → Except String RunSt
  | _, st, [] => Except.ok st
  | n, st, p :: ps =>
    match processImages env n ⟨st.content ++ pageRender n p.text, st.calls⟩
        p.images with
    | Except.error e => Except.error e
    | Except.ok st' => runPages env (n + 1) st' ps

/-- `parse_pdf` (src/main.py:111-173) with its instrumentation: returns
the composed document, the cache directory after the run, and the list of
contexts passed to the analyzer.  Fingerprint the bytes, short-circuit on
a cache hit, otherwise run the page loop, `strip()` the result, store it,
return it.  Cache read/write exceptions, structural parse exceptions and
decode/save exceptions all propagate. -/
def parsePdfR (env : Env) (cache : Cache) (content : List Nat) :
    Except String (String × Cache × List String) :=
  let h := env.get_pdf_hash content
  match FileCache.get cache h with
  | Except.error e => Except.error e
  | Except.ok (some doc) => Except.ok (doc, cache, [])
  | Except.ok none =>
    match env.readPdf content with
    | Except.error e => Except.error e
    | Except.ok pages =>
      match runPages env 1 ⟨"", []⟩ pages with
      | Except.error e => Except.error e
      | Except.ok st =>
        let result := pyStrip st.content
        match FileCache.put env.putError cache h result with
        | Except.error e => Except.error e
        | Except.ok cache' => Except.ok (result, cache', st.calls)

/-- The document alone, as the caller of `parse_pdf` sees it. -/
def parse_pdf (env : Env) (cache : Cache) (content : List Nat) :
    Except String String :=
  match parsePdfR env cache content with
  | Except.error e => Except.error e
  | Except.ok (doc, _, _) => Except.ok doc

/-- The invariant the analyzer-call instrumentation maintains: the
recorded contexts form a prefix chain and each is a prefix of the
document built so far. -/
def CallsInv (st : RunSt) : Prop :=
  List.Pairwise StrPre st.calls ∧ ∀ c ∈ st.calls, StrPre c st.content

/-- A 500x500 FlateDecode image: recognized and relevant. -/
def imgFlate : Img := ⟨"/Image", "/FlateDecode", 500, 500⟩

/-- An 800x600 DCTDecode image: recognized and relevant. -/
def imgDct : Img := ⟨"/Image", "/DCTDecode", 800, 600⟩

/-- An image with an unrecognized encoding filter. -/
def imgLzw : Img := ⟨"/Image", "/LZWDecode", 50, 50⟩

/-- A non-image XObject. -/
def imgForm : Img := ⟨"/Form", "/FlateDecode", 10, 10⟩

/-- A concrete two-page document for witnesses: page 1 has no images,
page 2 has a form XObject, a FlateDecode image, an unrecognized-filter
image and a DCTDecode image. -/
def pagesW : List Page :=
  [⟨"alpha", []⟩, ⟨"beta", [imgForm, imgFlate, imgLzw, imgDct]⟩]

/-- Concrete raw PDF bytes for witnesses. -/
def bytesW : List Nat := [37, 80, 68, 70]

/-- A fully functional external world: a length-based fingerprint, a
reader that yields `pagesW`, a writable cache store, and decode, save
and analyze calls that all succeed. -/
def okEnv : Env where
  get_pdf_hash := fun bs => "h" ++ toString bs.length
  readPdf := fun _ => Except.ok pagesW
  putError := none
  decodeImg := fun _ => Except.ok ()
  saveImg := fun _ _ => Except.ok ()
  analyze_image := fun i _ _ => Except.ok ("analysis " ++ toString i.width)

/-- Like `okEnv` but every model call raises. -/
def failAnalyzeEnv : Env :=
  { okEnv with analyze_image := fun _ _ _ => Except.error "api quota exceeded" }

/-- Like `okEnv` but every image decode raises. -/
def failDecodeEnv : Env :=
  { okEnv with decodeImg := fun _ => Except.error "cannot identify image file" }

/-- Like `okEnv` but every image re-encode raises. -/
def failSaveEnv : Env :=
  { okEnv with saveImg := fun _ _ => Except.error "encoder error" }

/-- Like `okEnv` but the cache store is unwritable. -/
def failPutEnv : Env :=
  { okEnv with putError := some "read-only file system" }

/-- The document `parse_pdf` composes for `pagesW` under `okEnv`. -/
def docW : String :=
  "--- Page 1 ---\n\nalpha\n\n\n--- Page 2 ---\n\nbeta\n\n\n--- Image Analysis (Page 2) ---\n\nanalysis 500\n\n\n--- Image Analysis (Page 2) ---\n\nanalysis 800"

/-- The cache directory after that run. -/
def cacheW : Cache := [("h4", CEntry.good docW)]

/-- The analyzer-call contexts of that run. -/
def callsW : List String :=
  ["\n\n--- Page 1 ---\n\nalpha\n\n\n--- Page 2 ---\n\nbeta\n",
   "\n\n--- Page 1 ---\n\nalpha\n\n\n--- Page 2 ---\n\nbeta\n\n\n--- Image Analysis (Page 2) ---\n\nanalysis 500\n"]

/-- The loop state after the page loop of that run, before stripping. -/
def stW : RunSt :=
  ⟨"\n\n--- Page 1 ---\n\nalpha\n\n\n--- Page 2 ---\n\nbeta\n\n\n--- Image Analysis (Page 2) ---\n\nanalysis 500\n\n\n--- Image Analysis (Page 2) ---\n\nanalysis 800\n",
   callsW⟩

/-! ## Helper lemmas -/

lemma strPre_refl (a : String) : StrPre a a :=
  List.prefix_refl _

lemma strPre_append (a t : String) : StrPre a (a ++ t) := by
  unfold StrPre
  rw [String.data_append]
  exact List.prefix_append _ _

lemma strPre_trans {a b c : String} (h1 : StrPre a b) (h2 : StrPre b c) :
    StrPre a c :=
  List.IsPrefix.trans h1 h2

/-- Success-case characterization of the inner loop body: a non-qualifying
XObject leaves the state unchanged, a qualifying one appends exactly one
analysis section and records the pre-call context. -/
lemma processImage_ok_cases (env : Env) (n : Nat) (st st' : RunSt) (i : Img)
    (h : processImage env n st i = Except.ok st') :
    (qualifies i = false ∧ st' = st) ∨
    (qualifies i = true ∧ ∃ body : String,
      st' = ⟨st.content ++ imageRender n body, st.calls ++ [st.content]⟩) := by
  unfold processImage at h
  by_cases hs : i.subtype = "/Image"
  · rw [if_pos hs] at h
    rcases hf : filterFormat i.filter with _ | ⟨fmt, mime⟩
    · simp only [hf] at h
      injection h with h
      exact Or.inl ⟨by simp [qualifies, hf], h.symm⟩
    · simp only [hf] at h
      rcases hd : env.decodeImg i with e | u
      · simp only [hd] at h
        exact Except.noConfusion h
      · simp only [hd] at h
        by_cases hr : is_relevant_image i.width i.height = true
        · rw [if_pos hr] at h
          rcases hsv : env.saveImg i fmt with e | v
          · simp only [hsv] at h
            exact Except.noConfusion h
          · simp only [hsv] at h
            injection h with h
            refine Or.inr ⟨by simp [qualifies, hs, hf, hr], ?_⟩
            exact ⟨_, h.symm⟩
        · rw [if_neg hr] at h
          injection h with h
          refine Or.inl ⟨?_, h.symm⟩
          simp [qualifies, hs, hf]
          simpa using hr
  · rw [if_neg hs] at h
    injection h with h
    exact Or.inl ⟨by simp [qualifies, hs], h.symm⟩

/-- A page's inner loop, when it succeeds, appends exactly one analysis
section per qualifying image, in encounter order. -/
lemma processImages_shape (env : Env) (n : Nat) :
    ∀ (imgs : List Img) (st st' : RunSt),
      processImages env n st imgs = Except.ok st' →
      ∃ bodies : List String,
        bodies.length = (imgs.filter (fun i => qualifies i)).length ∧
        st'.content = st.content ++ strConcat (bodies.map (imageRender n)) := by
  intro imgs
  induction imgs with
  | nil =>
    intro st st' h
    injection h with h
    exact ⟨[], by simp [h, strConcat]⟩
  | cons i is ih =>
    intro st st' h
    unfold processImages at h
    rcases hp : processImage env n st i with e | st1
    · simp only [hp] at h
      exact Except.noConfusion h
    · simp only [hp] at h
      rcases processImage_ok_cases env n st st1 i hp with ⟨hq, hst⟩ | ⟨hq, body, hst⟩
      · rw [hst] at h
        rcases ih st st' h with ⟨bodies, hlen, hcontent⟩
        refine ⟨bodies, ?_, hcontent⟩
        rw [List.filter_cons_of_neg (by simp [hq])]
        exact hlen
      · subst hst
        rcases ih _ st' h with ⟨bodies, hlen, hcontent⟩
        refine ⟨body :: bodies, ?_, ?_⟩
        · rw [List.filter_cons_of_pos (by simp [hq])]
          simpa using hlen
        · rw [hcontent]
          simp only [List.map_cons, strConcat]
          rw [String.append_assoc]

/-- The page loop, when it succeeds, appends one contribution per page,
in increasing page order: the page header plus one analysis section per
qualifying image of that page. -/
lemma runPages_shape (env : Env) :
    ∀ (pages : List Page) (n : Nat) (st st' : RunSt),
      runPages env n st pages = Except.ok st' →
      ∃ pcs : List String,
        pcs.length = pages.length ∧
        st'.content = st.content ++ strConcat pcs ∧
        ∀ k p c, pages.get? k = some p → pcs.get? k = some c →
          ∃ bodies : List String,
            bodies.length = (p.images.filter (fun i => qualifies i)).length ∧
            c = pageRender (n + k) p.text ++
                strConcat (bodies.map (imageRender (n + k))) := by
  intro pages
  induction pages with
  | nil =>
    intro n st st' h
    injection h with h
    refine ⟨[], rfl, by simp [h, strConcat], ?_⟩
    intro k p c hp _
    simp at hp
  | cons p ps ih =>
    intro n st st' h
    unfold runPages at h
    rcases hp : processImages env n ⟨st.content ++ pageRender n p.text, st.calls⟩
        p.images with e | st1
    · simp only [hp] at h
      exact Except.noConfusion h
    · simp only [hp] at h
      rcases processImages_shape env n p.images _ st1 hp with ⟨bodies, hblen, hbcontent⟩
      rcases ih (n + 1) st1 st' h with ⟨pcs, hlen, hcontent, hidx⟩
      refine ⟨(pageRender n p.text ++ strConcat (bodies.map (imageRender n))) :: pcs,
        by simp [hlen], ?_, ?_⟩
      · rw [hcontent, hbcontent]
        simp only [strConcat]
        simp [String.append_assoc]
      · intro k q c hq hc
        cases k with
        | zero =>
          simp only [List.get?_cons_zero, Option.some.injEq] at hq hc
          subst hq
          subst hc
          exact ⟨bodies, hblen, by simp⟩
        | succ k =>
          simp only [List.get?_cons_succ] at hq hc
          rcases hidx k q c hq hc with ⟨bodies', hb1, hb2⟩
          refine ⟨bodies', hb1, ?_⟩
          have heq : n + 1 + k = n + (k + 1) := by omega
          rw [heq] at hb2
          exact hb2

/-- One loop-body step preserves the analyzer-context invariant. -/
lemma callsInv_processImage (env : Env) (n : Nat) (st st' : RunSt) (i : Img)
    (hinv : CallsInv st) (h : processImage env n st i = Except.ok st') :
    CallsInv st' := by
  rcases processImage_ok_cases env n st st' i h with ⟨_, hst⟩ | ⟨_, body, hst⟩
  · rwa [hst]
  · subst hst
    rcases hinv with ⟨hpair, hpre⟩
    constructor
    · rw [List.pairwise_append]
      refine ⟨hpair, by simp, ?_⟩
      intro a ha b hb
      simp only [List.mem_singleton] at hb
      subst hb
      exact hpre a ha
    · intro c hc
      rcases List.mem_append.mp hc with hc | hc
      · exact strPre_trans (hpre c hc) (strPre_append _ _)
      · simp only [List.mem_singleton] at hc
        subst hc
        exact strPre_append _ _

/-- The inner loop preserves the analyzer-context invariant. -/
lemma callsInv_processImages (env : Env) (n : Nat) :
    ∀ (imgs : List Img) (st st' : RunSt), CallsInv st →
      processImages env n st imgs = Except.ok st' → CallsInv st' := by
  intro imgs
  induction imgs with
  | nil =>
    intro st st' hinv h
    injection h with h
    rwa [← h]
  | cons i is ih =>
    intro st st' hinv h
    unfold processImages at h
    rcases hp : processImage env n st i with e | st1
    · simp only [hp] at h
      exact Except.noConfusion h
    · simp only [hp] at h
      exact ih st1 st' (callsInv_processImage env n st st1 i hinv hp) h

/-- Appending the page header preserves the analyzer-context invariant. -/
lemma callsInv_page (st : RunSt) (n : Nat) (t : String) (h : CallsInv st) :
    CallsInv ⟨st.content ++ pageRender n t, st.calls⟩ := by
  rcases h with ⟨hp, hc⟩
  exact ⟨hp, fun c hm => strPre_trans (hc c hm) (strPre_append _ _)⟩

/-- The page loop preserves the analyzer-context invariant. -/
lemma callsInv_runPages (env : Env) :
    ∀ (pages : List Page) (n : Nat) (st st' : RunSt), CallsInv st →
      runPages env n st pages = Except.ok st' → CallsInv st' := by
  intro pages
  induction pages with
  | nil =>
    intro n st st' hinv h
    injection h with h
    rwa [← h]
  | cons p ps ih =>
    intro n st st' hinv h
    unfold runPages at h
    rcases hp : processImages env n ⟨st.content ++ pageRender n p.text, st.calls⟩
        p.images with e | st1
    · simp only [hp] at h
      exact Except.noConfusion h
    · simp only [hp] at h
      exact ih (n + 1) st1 st'
        (callsInv_processImages env n p.images _ st1 (callsInv_page st n p.text hinv) hp) h

/-- With decode and re-encode succeeding, one loop-body step always
succeeds — whatever the analyzer does — and only grows the document. -/
lemma processImage_total (env : Env)
    (hdec : ∀ i, env.decodeImg i = Except.ok ())
    (hsave : ∀ i f, env.saveImg i f = Except.ok ())
    (n : Nat) (st : RunSt) (i : Img) :
    ∃ st', processImage env n st i = Except.ok st' ∧
      StrPre st.content st'.content := by
  unfold processImage
  by_cases hs : i.subtype = "/Image"
  · rcases hf : filterFormat i.filter with _ | ⟨fmt, mime⟩
    · simp only [if_pos hs, hf]
      exact ⟨st, rfl, strPre_refl _⟩
    · simp only [if_pos hs, hf, hdec i]
      by_cases hr : is_relevant_image i.width i.height = true
      · simp only [if_pos hr, hsave i fmt]
        exact ⟨_, rfl, strPre_append _ _⟩
      · simp only [if_neg hr]
        exact ⟨st, rfl, strPre_refl _⟩
  · simp only [if_neg hs]
    exact ⟨st, rfl, strPre_refl _⟩

/-- With decode and re-encode succeeding, the inner loop always succeeds
and only grows the document. -/
lemma processImages_total (env : Env)
    (hdec : ∀ i, env.decodeImg i = Except.ok ())
    (hsave : ∀ i f, env.saveImg i f = Except.ok ()) (n : Nat) :
    ∀ (imgs : List Img) (st : RunSt),
      ∃ st', processImages env n st imgs = Except.ok st' ∧
        StrPre st.content st'.content := by
  intro imgs
  induction imgs with
  | nil =>
    intro st
    exact ⟨st, rfl, strPre_refl _⟩
  | cons i is ih =>
    intro st
    rcases processImage_total env hdec hsave n st i with ⟨st1, h1, hpre1⟩
    rcases ih st1 with ⟨st2, h2, hpre2⟩
    refine ⟨st2, ?_, strPre_trans hpre1 hpre2⟩
    unfold processImages
    simp only [h1]
    exact h2

/-- With decode and re-encode succeeding, the page loop always succeeds
and only grows the document: no analyzer behavior can abort it. -/
lemma runPages_total (env : Env)
    (hdec : ∀ i, env.decodeImg i = Except.ok ())
    (hsave : ∀ i f, env.saveImg i f = Except.ok ()) :
    ∀ (pages : List Page) (n : Nat) (st : RunSt),
      ∃ st', runPages env n st pages = Except.ok st' ∧
        StrPre st.content st'.content := by
  intro pages
  induction pages with
  | nil =>
    intro n st
    exact ⟨st, rfl, strPre_refl _⟩
  | cons p ps ih =>
    intro n st
    rcases processImages_total env hdec hsave n p.images
      ⟨st.content ++ pageRender n p.text, st.calls⟩ with ⟨st1, h1, hpre1⟩
    rcases ih (n + 1) st1 with ⟨st2, h2, hpre2⟩
    refine ⟨st2, ?_, ?_⟩
    · unfold runPages
      simp only [h1]
      exact h2
    · exact strPre_trans (strPre_append _ _) (strPre_trans hpre1 hpre2)

/-! ## Claim theorems -/

/-- C1: an exception raised by the image analyzer never aborts the
pipeline: it is caught, and the literal string "Error analyzing image: "
followed by the exception's message is appended to the composed document
in place of the analysis; and — whatever the analyzer returns or raises —
the page loop runs to completion whenever decode and re-encode succeed,
preserving all previously extracted page text as a prefix of the
output. -/
theorem analyzer_failure_contained :
    (∀ (env : Env) (n : Nat) (st : RunSt) (i : Img) (fmt mime e : String),
       i.subtype = "/Image" → filterFormat i.filter = some (fmt, mime) →
       env.decodeImg i = Except.ok () →
       is_relevant_image i.width i.height = true →
       env.saveImg i fmt = Except.ok () →
       env.analyze_image i mime st.content = Except.error e →
       processImage env n st i = Except.ok
         ⟨st.content ++ imageRender n ("Error analyzing image: " ++ e),
          st.calls ++ [st.content]⟩) ∧
    (∀ env : Env, (∀ i, env.decodeImg i = Except.ok ()) →
       (∀ i f, env.saveImg i f = Except.ok ()) →
       ∀ (pages : List Page) (n : Nat) (st : RunSt),
         ∃ st', runPages env n st pages = Except.ok st' ∧
           StrPre st.content st'.content) := by
  constructor
  · intro env n st i fmt mime e hs hf hd hr hsv ha
    unfold processImage
    simp only [if_pos hs, hf, hd, if_pos hr, hsv, ha]
  · intro env hdec hsave pages n st
    exact runPages_total env hdec hsave pages n st

/-- C1 witness: with an analyzer that always raises "api quota exceeded"
the section carries the placeholder, and the two-page document still
processes fully. -/
theorem analyzer_failure_contained_witness :
    processImage failAnalyzeEnv 2 ⟨"PRIOR", []⟩ imgFlate = Except.ok
      ⟨"PRIOR" ++ imageRender 2 ("Error analyzing image: " ++ "api quota exceeded"),
       [] ++ ["PRIOR"]⟩ ∧
    (∃ st', runPages failAnalyzeEnv 1 ⟨"", []⟩ pagesW = Except.ok st' ∧
       StrPre "" st'.content) := by
  constructor
  · exact analyzer_failure_contained.1 failAnalyzeEnv 2 ⟨"PRIOR", []⟩ imgFlate
      "png" "image/png" "api quota exceeded" rfl rfl rfl rfl rfl rfl
  · exact analyzer_failure_contained.2 failAnalyzeEnv (fun _ => rfl) (fun _ _ => rfl)
      pagesW 1 ⟨"", []⟩

/-- C2 counterexample: the claim says `is_relevant_image 200 200` returns
false (filtered out); in the code `40000 < 40000` is false, so a 200x200
image is analyzed and the result is not false. -/
theorem relevance_boundary_cex : is_relevant_image 200 200 ≠ false := by
  norm_num [is_relevant_image]

/-- C2 amended: at 200x200 the pixel count equals the threshold, which is
not strictly below it, so the image IS analyzed; 201x200, 100x200 and
every zero-height image are analyzed as claimed. -/
theorem relevance_boundary_amended :
    is_relevant_image 200 200 = true ∧ is_relevant_image 201 200 = true ∧
    is_relevant_image 100 200 = true ∧
    ∀ w : Nat, is_relevant_image w 0 = true := by
  refine ⟨?_, ?_, ?_, fun w => ?_⟩ <;> norm_num [is_relevant_image]

/-- C3 counterexample: a malformed cache record for the fingerprint of
the input makes `parse_pdf` raise instead of returning a document, and an
unwritable cache store makes an otherwise fully successful parse raise at
the final put. -/
theorem cache_failure_aborts_cex :
    parse_pdf okEnv [("h4", CEntry.bad "Expecting value: line 1 column 1 (char 0)")]
      bytesW = Except.error "Expecting value: line 1 column 1 (char 0)" ∧
    parse_pdf failPutEnv [] bytesW = Except.error "read-only file system" :=
  ⟨rfl, rfl⟩

/-- C3 amended: cache read/write failures are NOT contained by
`parse_pdf`: an unreadable or malformed record for the fingerprint makes
it propagate that error, and an unwritable store aborts even a fully
composed parse. -/
theorem cache_failure_propagates (env : Env) (cache : Cache)
    (content : List Nat) (e : String) :
    (cacheLookup cache (env.get_pdf_hash content) = some (CEntry.bad e) →
      parse_pdf env cache content = Except.error e) ∧
    (env.putError = some e →
      ∀ (pages : List Page) (st : RunSt),
        FileCache.get cache (env.get_pdf_hash content) = Except.ok none →
        env.readPdf content = Except.ok pages →
        runPages env 1 ⟨"", []⟩ pages = Except.ok st →
        parse_pdf env cache content = Except.error e) := by
  constructor
  · intro hb
    unfold parse_pdf parsePdfR
    simp only [FileCache.get, hb]
  · intro hput pages st hmiss hread hrun
    unfold parse_pdf parsePdfR
    simp only [hmiss, hread, hrun, FileCache.put, hput]

/-- C3 witness: concrete runs of both aborting paths. -/
theorem cache_failure_propagates_witness :
    parse_pdf okEnv [("h4", CEntry.bad "boom")] bytesW = Except.error "boom" ∧
    parse_pdf failPutEnv [] bytesW = Except.error "read-only file system" := by
  constructor
  · exact (cache_failure_propagates okEnv [("h4", CEntry.bad "boom")] bytesW "boom").1 rfl
  · exact (cache_failure_propagates failPutEnv [] bytesW "read-only file system").2
      rfl pagesW stW rfl rfl rfl

/-- C5: the relevance filter returns false — the image is skipped —
exactly when the pixel count is strictly below 40000 and the exact
rational aspect ratio width/height lies in the inclusive band
[0.8, 1.2]; all other dimensions are analyzed. -/
theorem relevance_filter_characterization (w h : Nat) :
    is_relevant_image w h = false ↔
      (w * h < 40000 ∧ (0.8 : ℚ) ≤ (w : ℚ) / (h : ℚ) ∧
        (w : ℚ) / (h : ℚ) ≤ (1.2 : ℚ)) := by
  by_cases h0 : h = 0
  · subst h0
    constructor
    · intro hf
      have ht : is_relevant_image w 0 = true := by norm_num [is_relevant_image]
      rw [ht] at hf
      exact Bool.noConfusion hf
    · rintro ⟨-, hr, -⟩
      rw [Nat.cast_zero, div_zero] at hr
      norm_num at hr
  · simp [is_relevant_image, h0, and_assoc]

/-- C7: an XObject whose encoding filter is none of FlateDecode,
DCTDecode, JPXDecode is skipped silently: no exception, no analyzer
call recorded, no section appended — the state is returned unchanged. -/
theorem unrecognized_filter_skipped (env : Env) (n : Nat) (st : RunSt)
    (i : Img) (h1 : i.filter ≠ "/FlateDecode") (h2 : i.filter ≠ "/DCTDecode")
    (h3 : i.filter ≠ "/JPXDecode") :
    processImage env n st i = Except.ok st := by
  have hf : filterFormat i.filter = none := by
    simp [filterFormat, h1, h2, h3]
  unfold processImage
  by_cases hs : i.subtype = "/Image"
  · simp [if_pos hs, hf]
  · simp [if_neg hs]

/-- C7 witness: an LZWDecode image passes through untouched. -/
theorem unrecognized_filter_skipped_witness :
    processImage okEnv 3 ⟨"T", ["c"]⟩ imgLzw = Except.ok ⟨"T", ["c"]⟩ :=
  unrecognized_filter_skipped okEnv 3 ⟨"T", ["c"]⟩ imgLzw
    (by decide) (by decide) (by decide)

/-- C8: for every width, a zero height short-circuits the guarded
division, the ratio is taken as 0, outside the band, and the filter
returns true: the image is analyzed and the function is total. -/
theorem zero_height_analyzed : ∀ w : Nat, is_relevant_image w 0 = true := by
  intro w
  norm_num [is_relevant_image]

/-- C4: a cache hit returns the stored document verbatim with zero
analyzer calls and zero page work (the cache is not even written), and —
with a writable store — any successful parse followed by a parse of the
same bytes returns the identical document, the second call making zero
analyzer calls. -/
theorem cache_hit_idempotence (env : Env) (cache : Cache) (content : List Nat) :
    (∀ doc, cacheLookup cache (env.get_pdf_hash content) = some (CEntry.good doc) →
       parsePdfR env cache content = Except.ok (doc, cache, [])) ∧
    (env.putError = none →
       ∀ (d1 : String) (c1 : Cache) (t1 : List String),
         parsePdfR env cache content = Except.ok (d1, c1, t1) →
         parsePdfR env c1 content = Except.ok (d1, c1, [])) := by
  constructor
  · intro doc hg
    unfold parsePdfR
    simp only [FileCache.get, hg]
  · intro hput d1 c1 t1 h1
    rcases hg : cacheLookup cache (env.get_pdf_hash content) with _ | entry
    · unfold parsePdfR at h1
      simp only [FileCache.get, hg] at h1
      rcases hr : env.readPdf content with e | pages
      · simp only [hr] at h1
        exact Except.noConfusion h1
      · simp only [hr] at h1
        rcases hrun : runPages env 1 ⟨"", []⟩ pages with e | st
        · simp only [hrun] at h1
          exact Except.noConfusion h1
        · simp only [hrun, FileCache.put, hput] at h1
          injection h1 with h1
          simp only [Prod.mk.injEq] at h1
          obtain ⟨hd, hc, -⟩ := h1
          subst hd
          subst hc
          unfold parsePdfR
          simp [FileCache.get, cacheLookup]
    · cases entry with
      | good d =>
        unfold parsePdfR at h1
        simp only [FileCache.get, hg] at h1
        injection h1 with h1
        simp only [Prod.mk.injEq] at h1
        obtain ⟨hd, hc, -⟩ := h1
        subst hd
        subst hc
        unfold parsePdfR
        simp only [FileCache.get, hg]
      | bad e =>
        unfold parsePdfR at h1
        simp only [FileCache.get, hg] at h1
        exact Except.noConfusion h1

/-- C4 witness: a pre-seeded cache is returned verbatim with no calls,
and a concrete miss-then-hit pair returns the identical document with
zero analyzer calls the second time. -/
theorem cache_hit_idempotence_witness :
    parsePdfR okEnv [("h4", CEntry.good "CACHED")] bytesW
      = Except.ok ("CACHED", [("h4", CEntry.good "CACHED")], []) ∧
    parsePdfR okEnv cacheW bytesW = Except.ok (docW, cacheW, []) := by
  constructor
  · exact (cache_hit_idempotence okEnv [("h4", CEntry.good "CACHED")] bytesW).1
      "CACHED" rfl
  · exact (cache_hit_idempotence okEnv [] bytesW).2 rfl docW cacheW callsW rfl

/-- C6: on a cache miss, a successful parse returns — leading and
trailing whitespace stripped — the concatenation of one contribution per
page in strictly increasing page order: page k+1 contributes its
"--- Page k+1 ---" header followed by its text, then exactly one
"--- Image Analysis (Page k+1) ---" section per qualifying image of that
page, in encounter order. -/
theorem composed_document_structure (env : Env) (cache : Cache)
    (content : List Nat) (pages : List Page) (doc : String) (cache' : Cache)
    (calls : List String)
    (hmiss : FileCache.get cache (env.get_pdf_hash content) = Except.ok none)
    (hread : env.readPdf content = Except.ok pages)
    (hok : parsePdfR env cache content = Except.ok (doc, cache', calls)) :
    ∃ pcs : List String,
      pcs.length = pages.length ∧
      doc = pyStrip (strConcat pcs) ∧
      ∀ k p c, pages.get? k = some p → pcs.get? k = some c →
        ∃ bodies : List String,
          bodies.length = (p.images.filter (fun i => qualifies i)).length ∧
          c = pageRender (k + 1) p.text ++
              strConcat (bodies.map (imageRender (k + 1))) := by
  unfold parsePdfR at hok
  simp only [hmiss, hread] at hok
  rcases hrun : runPages env 1 ⟨"", []⟩ pages with e | st
  · simp only [hrun] at hok
    exact Except.noConfusion hok
  · simp only [hrun] at hok
    rcases hput : FileCache.put env.putError cache (env.get_pdf_hash content)
        (pyStrip st.content) with e | c2
    · simp only [hput] at hok
      exact Except.noConfusion hok
    · simp only [hput] at hok
      injection hok with hok
      simp only [Prod.mk.injEq] at hok
      obtain ⟨hd, -, -⟩ := hok
      rcases runPages_shape env pages 1 ⟨"", []⟩ st hrun with ⟨pcs, hlen, hcontent, hidx⟩
      refine ⟨pcs, hlen, ?_, ?_⟩
      · rw [← hd, hcontent]
        simp [String.empty_append]
      · intro k p c hp hc2
        rcases hidx k p c hp hc2 with ⟨bodies, hb1, hb2⟩
        refine ⟨bodies, hb1, ?_⟩
        have heq : 1 + k = k + 1 := by omega
        rwa [heq] at hb2

/-- C6 witness: the concrete two-page run has the claimed structure. -/
theorem composed_document_structure_witness :
    ∃ pcs : List String,
      pcs.length = pagesW.length ∧
      docW = pyStrip (strConcat pcs) ∧
      ∀ k p c, pagesW.get? k = some p → pcs.get? k = some c →
        ∃ bodies : List String,
          bodies.length = (p.images.filter (fun i => qualifies i)).length ∧
          c = pageRender (k + 1) p.text ++
              strConcat (bodies.map (imageRender (k + 1))) :=
  composed_document_structure okEnv [] bytesW pagesW docW cacheW callsW rfl rfl rfl

/-- C9: every analyzer call receives as context exactly the document
composed so far — that is what the instrumentation records — and within
one run those contexts grow monotonically: in the list of contexts of a
completed `parse_pdf` run, every earlier context is a prefix of every
later one. -/
theorem analysis_context_monotone (env : Env) (cache : Cache)
    (content : List Nat) (doc : String) (cache' : Cache) (calls : List String)
    (h : parsePdfR env cache content = Except.ok (doc, cache', calls)) :
    List.Pairwise StrPre calls := by
  unfold parsePdfR at h
  rcases hg : FileCache.get cache (env.get_pdf_hash content) with e | og
  · simp only [hg] at h
    exact Except.noConfusion h
  · rcases og with _ | d
    · simp only [hg] at h
      rcases hr : env.readPdf content with e | pages
      · simp only [hr] at h
        exact Except.noConfusion h
      · simp only [hr] at h
        rcases hrun : runPages env 1 ⟨"", []⟩ pages with e | st
        · simp only [hrun] at h
          exact Except.noConfusion h
        · simp only [hrun] at h
          rcases hput : FileCache.put env.putError cache (env.get_pdf_hash content)
              (pyStrip st.content) with e | c2
          · simp only [hput] at h
            exact Except.noConfusion h
          · simp only [hput] at h
            injection h with h
            simp only [Prod.mk.injEq] at h
            obtain ⟨-, -, ht⟩ := h
            subst ht
            have hinv := callsInv_runPages env pages 1 ⟨"", []⟩ st
              ⟨List.Pairwise.nil, by simp⟩ hrun
            exact hinv.1
    · simp only [hg] at h
      injection h with h
      simp only [Prod.mk.injEq] at h
      obtain ⟨-, -, ht⟩ := h
      subst ht
      exact List.Pairwise.nil

/-- C9 witness: the contexts of the concrete two-image run form a prefix
chain. -/
theorem analysis_context_monotone_witness : List.Pairwise StrPre callsW :=
  analysis_context_monotone okEnv [] bytesW docW cacheW callsW rfl

/-- C10: only the analyzer call sits inside the per-image `try/except`:
an exception from decoding a recognized image propagates out of the loop
body, an exception from re-encoding a relevant image propagates as well,
a failing page loop makes `parse_pdf` itself raise — discarding all
already-composed page text — whereas with decode and save succeeding the
loop body always succeeds, whatever the analyzer does. -/
theorem decode_save_errors_propagate :
    (∀ (env : Env) (n : Nat) (st : RunSt) (i : Img) (fmt mime e : String),
       i.subtype = "/Image" → filterFormat i.filter = some (fmt, mime) →
       env.decodeImg i = Except.error e →
       processImage env n st i = Except.error e) ∧
    (∀ (env : Env) (n : Nat) (st : RunSt) (i : Img) (fmt mime e : String),
       i.subtype = "/Image" → filterFormat i.filter = some (fmt, mime) →
       env.decodeImg i = Except.ok () →
       is_relevant_image i.width i.height = true →
       env.saveImg i fmt = Except.error e →
       processImage env n st i = Except.error e) ∧
    (∀ (env : Env) (cache : Cache) (content : List Nat) (pages : List Page)
       (e : String),
       FileCache.get cache (env.get_pdf_hash content) = Except.ok none →
       env.readPdf content = Except.ok pages →
       runPages env 1 ⟨"", []⟩ pages = Except.error e →
       parse_pdf env cache content = Except.error e) ∧
    (∀ (env : Env) (n : Nat) (st : RunSt) (i : Img) (fmt mime : String),
       i.subtype = "/Image" → filterFormat i.filter = some (fmt, mime) →
       env.decodeImg i = Except.ok () →
       is_relevant_image i.width i.height = true →
       env.saveImg i fmt = Except.ok () →
       ∃ st', processImage env n st i = Except.ok st') := by
  refine ⟨?_, ?_, ?_, ?_⟩
  · intro env n st i fmt mime e hs hf hd
    unfold processImage
    simp only [if_pos hs, hf, hd]
  · intro env n st i fmt mime e hs hf hd hr hsv
    unfold processImage
    simp only [if_pos hs, hf, hd, if_pos hr, hsv]
  · intro env cache content pages e hmiss hread hrun
    unfold parse_pdf parsePdfR
    simp only [hmiss, hread, hrun]
  · intro env n st i fmt mime hs hf hd hr hsv
    unfold processImage
    simp only [if_pos hs, hf, hd, if_pos hr, hsv]
    exact ⟨_, rfl⟩

/-- C10 witness: concrete aborts for decode and save failures, a concrete
whole-request abort with the decode message, and a concrete success of
the guarded analyzer step. -/
theorem decode_save_errors_propagate_witness :
    processImage failDecodeEnv 1 ⟨"T", []⟩ imgFlate
      = Except.error "cannot identify image file" ∧
    processImage failSaveEnv 1 ⟨"T", []⟩ imgFlate
      = Except.error "encoder error" ∧
    parse_pdf failDecodeEnv [] bytesW
      = Except.error "cannot identify image file" ∧
    (∃ st', processImage okEnv 1 ⟨"T", []⟩ imgFlate = Except.ok st') := by
  refine ⟨?_, ?_, ?_, ?_⟩
  · exact decode_save_errors_propagate.1 failDecodeEnv 1 ⟨"T", []⟩ imgFlate
      "png" "image/png" "cannot identify image file" rfl rfl rfl
  · exact decode_save_errors_propagate.2.1 failSaveEnv 1 ⟨"T", []⟩ imgFlate
      "png" "image/png" "encoder error" rfl rfl rfl rfl rfl
  · exact decode_save_errors_propagate.2.2.1 failDecodeEnv [] bytesW pagesW
      "cannot identify image file" rfl rfl rfl
  · exact decode_save_errors_propagate.2.2.2 okEnv 1 ⟨"T", []⟩ imgFlate
      "png" "image/png" rfl rfl rfl rfl rfl
